import Mathlib

/-!
Verification of the env-to-flags translator of this repository
(`load_env.py`): the `.env` parser `parse_env_file`, the value classifier
and renderer `get_build_flag` / `is_float`, and the module-level
report/publish logic, embedded shallowly over `List Char` / `String`.
Strings are modelled at the ASCII level (Python's additional Unicode
behaviour of `str.isdigit`, `str.lower`, `float` is out of scope).
-/

namespace LoadEnv

/-- Whitespace characters removed by Python's `str.strip()` (ASCII range). -/
def isSpaceB (c : Char) : Bool :=
  c == ' ' || c == '\t' || c == '\n' || c == '\r' || c == '\x0b' || c == '\x0c'

/-- Left strip: drop leading whitespace. -/
def stripL (s : List Char) : List Char := s.dropWhile isSpaceB

/-- Right strip: drop trailing whitespace. -/
def stripR (s : List Char) : List Char := (stripL s.reverse).reverse

/-- Python `str.strip()` on a character list. -/
def stripChars (s : List Char) : List Char := stripR (stripL s)

/-- Python `str.strip()` on a `String`. -/
def pyStrip (s : String) : String := String.mk (stripChars s.data)

/-- ASCII lowering of one character, as Python `str.lower()` does on ASCII. -/
def lowerChar (c : Char) : Char :=
  if 65 ≤ c.toNat ∧ c.toNat ≤ 90 then Char.ofNat (c.toNat + 32) else c

/-- ASCII raising of one character, as Python `str.upper()` does on ASCII. -/
def upperChar (c : Char) : Char :=
  if 97 ≤ c.toNat ∧ c.toNat ≤ 122 then Char.ofNat (c.toNat - 32) else c

/-- Python `str.lower()` on a character list. -/
def lowerL (s : List Char) : List Char := s.map lowerChar

/-- Python `str.upper()` on a character list. -/
def upperL (s : List Char) : List Char := s.map upperChar

/-- Python `str.lower()` on a `String`. -/
def pyLower (s : String) : String := String.mk (lowerL s.data)

/-- Python `value.isdigit()` restricted to ASCII: nonempty and all decimal
digits. -/
def allDigits (s : List Char) : Bool := !s.isEmpty && s.all Char.isDigit

/-- Python `s.replace(c, r)` for a single-character pattern `c`: every
occurrence of `c` is replaced by `r`, in one left-to-right pass. -/
def replaceChar (c : Char) (r : List Char) (s : List Char) : List Char :=
  s.flatMap (fun x => if x = c then r else [x])

/-- `KEY_PATTERN = ^[A-Za-z_][A-Za-z0-9_]*$` of `load_env.py` line 23,
matched against the (already stripped) key. -/
def matchKey : List Char → Bool
  | [] => false
  | c :: rest => (c.isAlpha || c == '_') && rest.all (fun d => d.isAlphanum || d == '_')

/-- Python `line.partition("=")` restricted to the pieces used by the
source: the part before the first `=` and the part after it.  Only called
when `=` occurs in the line. -/
def splitAtEq : List Char → List Char × List Char
  | [] => ([], [])
  | c :: rest =>
    if c = '=' then ([], rest)
    else
      let p := splitAtEq rest
      (c :: p.1, p.2)

/-- Maximal run of decimal digits with, when `u = true`, single
underscores allowed between digits (Python's numeric-literal digit part,
PEP 515); returns the unconsumed remainder. -/
def chompDigits (u : Bool) : List Char → List Char
  | [] => []
  | c :: rest =>
    if c.isDigit then chompDigits u rest
    else if u && c == '_' then
      match rest with
      | [] => c :: rest
      | d :: rest2 => if d.isDigit then chompDigits u rest2 else c :: rest
    else c :: rest

/-- Accepts an optional exponent part `(e|E)[+|-]digits` that must consume
the whole remaining input (empty input is accepted: no exponent). -/
def expOk (u : Bool) (s : List Char) : Bool :=
  match s with
  | [] => true
  | c :: rest =>
    (c == 'e' || c == 'E') &&
    (match rest with
     | [] => false
     | s1 :: rest2 =>
       if s1 == '+' || s1 == '-' then
         (match rest2 with
          | [] => false
          | d :: _ => d.isDigit && (chompDigits u rest2).isEmpty)
       else s1.isDigit && (chompDigits u rest).isEmpty)

/-- After an integral digit part: optional fraction, then exponent. -/
def fracTail (u : Bool) (r2 : List Char) : List Char :=
  match r2 with
  | [] => []
  | d :: _ => if d.isDigit then chompDigits u r2 else r2

/-- Continuation of a numeric literal after its leading digit run. -/
def afterIntPart (u : Bool) (r : List Char) : Bool :=
  match r with
  | [] => true
  | c :: r2 =>
    if c = '.' then expOk u (fracTail u r2)
    else expOk u (c :: r2)

/-- Numeric part of Python's `float()` grammar (no sign, no inf/nan):
`digitpart [. [digitpart]] [exp]` or `. digitpart [exp]`; with `u = true`
underscores are allowed inside digit parts. -/
def pyNumber (u : Bool) (s : List Char) : Bool :=
  match s with
  | [] => false
  | c :: rest =>
    if c = '.' then
      match rest with
      | [] => false
      | d :: _ => d.isDigit && expOk u (chompDigits u rest)
    else if c.isDigit then afterIntPart u (chompDigits u s)
    else false

/-- Strip one leading sign character. -/
def stripSign : List Char → List Char
  | [] => []
  | c :: rest => if c = '+' || c = '-' then rest else c :: rest

/-- The infinity / NaN spellings accepted by Python's `float()`. -/
def isInfNan (s : List Char) : Bool :=
  lowerL s == "inf".data || lowerL s == "infinity".data || lowerL s == "nan".data

/-- Whether Python's `float(value)` succeeds: optional surrounding
whitespace, optional sign, then inf/nan or a numeric literal with
underscore grouping. -/
def pyFloatCore (s : List Char) : Bool :=
  let t := stripChars s
  let u := stripSign t
  isInfNan u || pyNumber true u

/-- `is_float` of `load_env.py` lines 81-88: `float(value)` succeeds and
the value contains a `.` or an `e`/`E` (via `"e" in value.lower()`). -/
def isFloatL (v : List Char) : Bool :=
  pyFloatCore v && (v.contains '.' || (lowerL v).contains 'e')

/-- `is_float` on `String`, the source's entry point. -/
def is_float (v : String) : Bool := isFloatL v.data

/-- The integer test of `load_env.py` line 67:
`value.isdigit() or (len(value) > 1 and value.startswith("-") and value[1:].isdigit())`. -/
def isIntClassL (v : List Char) : Bool :=
  allDigits v ||
  (decide (v.length > 1) &&
    (match v with
     | c :: rest => c == '-' && allDigits rest
     | [] => false))

/-- Integer classification on `String`. -/
def isIntClass (v : String) : Bool := isIntClassL v.data

/-- The string-branch escaping of `load_env.py` line 77: escape
backslashes, then double quotes (as three backslashes plus quote), then
single quotes, then spaces, each a full-string `str.replace` pass. -/
def escapeValue (v : List Char) : List Char :=
  replaceChar ' ' ['\\', ' ']
    (replaceChar '\x27' ['\\', '\x27']
      (replaceChar '\x22' ['\\', '\\', '\\', '\x22']
        (replaceChar '\\' ['\\', '\\'] v)))

/-- The rendered literal placed after `-D<KEY>_VALUE=` by
`get_build_flag`, following the branch order of `load_env.py`
lines 64-78: boolean, integer, float, then the string fallback wrapped in
`\"`...`\"`. -/
def renderValue (v : List Char) : List Char :=
  if lowerL v = "true".data ∨ lowerL v = "false".data then lowerL v
  else if isIntClassL v then v
  else if isFloatL v then v
  else '\\' :: '\x22' :: (escapeValue v ++ ['\\', '\x22'])

/-- `get_build_flag` of `load_env.py` lines 51-78: the macro name is
`<key>_VALUE` and the flag is `-D<macro>=<rendered value>`. -/
def get_build_flag (key value : String) : String :=
  "-D" ++ key ++ "_VALUE=" ++ String.mk (renderValue value.data)

/-- Outcome of one line of the `.env` file in `parse_env_file`
(`load_env.py` lines 33-47). -/
inductive LineResult where
  | skip : LineResult
  | warn : String → LineResult
  | entry : String → String → LineResult
deriving DecidableEq, Repr

/-- Per-line handling of `parse_env_file`: strip the line; skip blanks
and `#` comments and lines without `=`; split at the first `=`, strip key
and value; skip empty keys; warn on keys failing `KEY_PATTERN`; otherwise
accept the entry. -/
def classifyLine (raw : String) : LineResult :=
  let line := stripChars raw.data
  if line.isEmpty then .skip
  else if line.head? = some '#' then .skip
  else if line.contains '=' then
    let p := splitAtEq line
    let key := stripChars p.1
    let value := stripChars p.2
    if key.isEmpty then .skip
    else if matchKey key then .entry (String.mk key) (String.mk value)
    else .warn (String.mk key)
  else .skip

/-- The accepted entry of a line, when there is one. -/
def lineEntry (raw : String) : Option (String × String) :=
  match classifyLine raw with
  | .entry k v => some (k, v)
  | _ => none

/-- `config[key] = value` on the insertion-ordered dictionary model: an
existing key keeps its position and gets the new value; a new key is
appended. -/
def dictInsert (m : List (String × String)) (k v : String) : List (String × String) :=
  if m.any (fun p => p.1 = k) then
    m.map (fun p => if p.1 = k then (k, v) else p)
  else m ++ [(k, v)]

/-- The warning printed for an invalid key (`load_env.py` line 45). -/
def warnMsg (k : String) (n : Nat) : String :=
  "  Warning: Skipping invalid key \x27" ++ k ++ "\x27 on line " ++ toString n

/-- One step of the parse loop at 1-based line number `n`: state is the
config dictionary together with the lines printed so far. -/
def parseStep (n : Nat) (st : List (String × String) × List String) (raw : String) :
    List (String × String) × List String :=
  match classifyLine raw with
  | .skip => st
  | .warn k => (st.1, st.2 ++ [warnMsg k n])
  | .entry k v => (dictInsert st.1 k v, st.2)

/-- The parse loop over the remaining lines, threading the line number. -/
def parseLinesAux : Nat → (List (String × String) × List String) → List String →
    List (String × String) × List String
  | _, st, [] => st
  | n, st, l :: ls => parseLinesAux (n + 1) (parseStep n st l) ls

/-- `parse_env_file` of `load_env.py` lines 26-48.  The file is modelled
as `none` when absent and `some lines` when present; the result is the
config dictionary paired with the printed warnings. -/
def parse_env_file (file : Option (List String)) : List (String × String) × List String :=
  match file with
  | none => ([], [])
  | some lines => parseLinesAux 1 ([], []) lines

/-- Whether the first list starts the second one. -/
def startsWithL : List Char → List Char → Bool
  | [], _ => true
  | _ :: _, [] => false
  | a :: as, b :: bs => a == b && startsWithL as bs

/-- Python's substring test `needle in hay`. -/
def containsSub (needle : List Char) : List Char → Bool
  | [] => needle.isEmpty
  | c :: rest => startsWithL needle (c :: rest) || containsSub needle rest

/-- The sensitive-key test of `load_env.py` lines 103-106:
some sensitive word occurs as a substring of `key.upper()`. -/
def maskSensitive (k : String) : Bool :=
  ["PASSWORD".data, "TOKEN".data, "SECRET".data, "WEBHOOK".data].any
    (fun s => containsSub s (upperL k.data))

/-- The per-entry report line (`load_env.py` lines 102-109): sensitive
keys get the fixed `****` placeholder, others get their value. -/
def reportLine (p : String × String) : String :=
  if maskSensitive p.1 then "  " ++ p.1 ++ ": ****"
  else "  " ++ p.1 ++ ": " ++ p.2

/-- `os.path.join(dir, base)` for a relative `base`, as used at
`load_env.py` line 20. -/
def osPathJoin (a b : String) : String :=
  if a = "" then b
  else if a.data.getLast? = some '/' then a ++ b
  else a ++ "/" ++ b

/-- The informational message of `load_env.py` lines 113-116. -/
def noEnvMsg (p : String) : String :=
  "No .env file found at " ++ p ++
    ". Using default values from config.cpp or build_flags in platformio.ini."

/-- The banner of `load_env.py` line 95. -/
def loadMsg (p : String) : String := "Loading configuration from " ++ p

/-- The module-level logic of `load_env.py` lines 91-116: parse the file
at `<projectDir>/.env`; when the config is nonempty, append one flag per
entry to the pre-existing flag collection and print the banner and one
report line per entry; otherwise leave the flags untouched and print the
informational message.  Returns the final flag collection and the full
log.  The model is a total function: no exception is raised on any
input. -/
def runScript (projectDir : String) (file : Option (List String)) (preFlags : List String) :
    List String × List String :=
  let envFile := osPathJoin projectDir ".env"
  let parsed := parse_env_file file
  if parsed.1.isEmpty then
    (preFlags, parsed.2 ++ [noEnvMsg envFile])
  else
    (preFlags ++ parsed.1.map (fun p => get_build_flag p.1 p.2),
     parsed.2 ++ [loadMsg envFile] ++ parsed.1.map reportLine)

/-! ### Spec-side definitions

The remaining definitions do not embed source code.  They state, in
executable form, the downstream re-parsing the spec postulates ("re-parsing
the rendered literal in a C-like grammar") and auxiliary characterizations
(the sequence of accepted assignments, first-occurrence key order) used to
phrase the claims. -/

/-- The keys of the config dictionary, in order. -/
def keysOf (m : List (String × String)) : List String := m.map Prod.fst

/-- The accepted `(key, value)` assignments of a file, in file order,
duplicates included. -/
def assigns (lines : List String) : List (String × String) :=
  lines.filterMap lineEntry

/-- Keys of the assignments in order of first occurrence. -/
def firstKeys (ps : List (String × String)) : List String :=
  ps.foldl (fun acc p => if p.1 ∈ acc then acc else acc ++ [p.1]) []

/-- Folding a list of assignments into the dictionary. -/
def insFold (cfg : List (String × String)) (ps : List (String × String)) :
    List (String × String) :=
  ps.foldl (fun c p => dictInsert c p.1 p.2) cfg

/-- The warnings printed while parsing the given lines, the first line
carrying number `n`. -/
def warnsFrom : Nat → List String → List String
  | _, [] => []
  | n, l :: ls =>
    (match classifyLine l with
     | .warn k => [warnMsg k n]
     | _ => []) ++ warnsFrom (n + 1) ls

/-- Modelled from the spec: the value denoted by one rendered literal
after re-parsing "in a C-like grammar" (spec section 8); floats are kept
as their lexical token since the translator emits them verbatim. -/
inductive CValue where
  | bool : Bool → CValue
  | int : Int → CValue
  | float : String → CValue
  | str : String → CValue
deriving DecidableEq, Repr

/-- Numeric value of a digit run. -/
def digitsVal (s : List Char) : Nat :=
  s.foldl (fun a c => a * 10 + (c.toNat - 48)) 0

/-- Modelled from the spec: a C-like decimal integer token, an optional
minus sign followed by digits. -/
def cParseInt (s : List Char) : Option Int :=
  match s with
  | [] => none
  | c :: rest =>
    if c = '-' then
      if !rest.isEmpty && rest.all Char.isDigit then some (-(digitsVal rest : Int)) else none
    else if (c :: rest).all Char.isDigit then some ((digitsVal (c :: rest) : Int)) else none

/-- The integer denoted by a classified integer value: optional minus
sign, then the decimal digit run. -/
def intValOf (s : List Char) : Int :=
  match s with
  | [] => 0
  | c :: rest => if c = '-' then -(digitsVal rest : Int) else (digitsVal (c :: rest) : Int)

/-- One escaped character of the string branch, for values free of
backslashes: the net effect of the four replacement passes on one
character. -/
def esc1 (c : Char) : List Char :=
  if c = '\x22' then ['\\', '\\', '\\', '\x22']
  else if c = '\x27' then ['\\', '\x27']
  else if c = ' ' then ['\\', ' ']
  else [c]

/-- The C-source spelling of a string with its double quotes escaped, the
form that reaches the compiler after the shell pass. -/
def qesc (s : List Char) : List Char :=
  s.flatMap (fun c => if c = '\x22' then ['\\', '\x22'] else [c])

/-- Modelled from the spec: a C-like floating constant token — optional
sign, digits with optional fraction or leading dot, optional exponent, no
underscore separators — required to contain a `.` or an exponent marker
(a bare digit run is an integer token, not a float, in C). -/
def cFloatTok (s : List Char) : Bool :=
  pyNumber false (stripSign s) && (s.contains '.' || (lowerL s).contains 'e')

/-- Modelled from the spec: one level of shell backslash-unescaping,
`\c` becoming `c` — the transit through the build tool's shell invocation
that the source's escaping explicitly targets (`load_env.py` lines 75-76). -/
def shellUnescape : List Char → List Char
  | [] => []
  | [c] => [c]
  | c :: c2 :: rest =>
    if c = '\\' then c2 :: shellUnescape rest
    else c :: shellUnescape (c2 :: rest)

/-- Modelled from the spec: the value of a C string-literal escape
sequence `\c`; unknown escapes are rejected. -/
def cEsc (c : Char) : Option Char :=
  if c = '\x22' then some '\x22'
  else if c = '\\' then some '\\'
  else if c = '\x27' then some '\x27'
  else if c = 'n' then some '\n'
  else if c = 't' then some '\t'
  else if c = 'r' then some '\r'
  else if c = 'b' then some '\x08'
  else if c = 'f' then some '\x0c'
  else if c = 'v' then some '\x0b'
  else if c = 'a' then some '\x07'
  else if c = '0' then some '\x00'
  else none

/-- Modelled from the spec: the body of a C string literal after its
opening quote; the closing quote must end the token. -/
def cStrBody : List Char → Option (List Char)
  | [] => none
  | [c] => if c = '\x22' then some [] else none
  | c :: c2 :: rest =>
    if c = '\x22' then none
    else if c = '\\' then
      match cEsc c2, cStrBody rest with
      | some u, some t => some (u :: t)
      | _, _ => none
    else
      match cStrBody (c2 :: rest) with
      | some t => some (c :: t)
      | none => none

/-- Modelled from the spec: a C string-literal token. -/
def cParseString (s : List Char) : Option (List Char) :=
  match s with
  | '\x22' :: rest => cStrBody rest
  | _ => none

/-- Modelled from the spec: re-parse a rendered literal in a C-like
grammar.  The literal first crosses the build tool's shell (one level of
backslash-unescaping), then is read as a C-like token: boolean keyword,
decimal integer, floating constant, or string literal. -/
def reparse (lit : List Char) : Option CValue :=
  let t := shellUnescape lit
  if t = "true".data then some (.bool true)
  else if t = "false".data then some (.bool false)
  else
    match cParseInt t with
    | some n => some (.int n)
    | none =>
      if cFloatTok t then some (.float (String.mk t))
      else (cParseString t).map (fun s => .str (String.mk s))

/-- The value a raw configuration string denotes, per the classification
order of `get_build_flag`: boolean, integer, float (kept verbatim), or
plain string. -/
def interp (v : String) : CValue :=
  if pyLower v = "true" then .bool true
  else if pyLower v = "false" then .bool false
  else if isIntClass v then .int (intValOf v.data)
  else if is_float v then .float v
  else .str v

/-! ### Basic string lemmas -/

theorem mk_data (s : String) : String.mk s.data = s := by
  cases s
  rfl

theorem mk_inj {a b : List Char} : String.mk a = String.mk b ↔ a = b :=
  ⟨fun h => congrArg String.data h, fun h => congrArg String.mk h⟩

theorem pyLower_eq_iff {v : String} {t : List Char} :
    pyLower v = String.mk t ↔ lowerL v.data = t := by
  unfold pyLower
  exact mk_inj

/-! ### C1-C4: classification and rendering of one value -/

/-- C1: a value classified neither as boolean nor integer nor float is
rendered by the string branch, escaping backslashes first, then double
quotes, then single quotes, then spaces, and wrapping the escaped result
in `\"`...`\"`; and every value whatsoever yields a rendered flag of the
form `-D<KEY>_VALUE=<literal>`. -/
theorem string_fallback_render (k v : String)
    (hb : ¬(pyLower v = "true" ∨ pyLower v = "false"))
    (hi : isIntClass v = false) (hf : is_float v = false) :
    get_build_flag k v =
      "-D" ++ k ++ "_VALUE=" ++
        String.mk ('\\' :: '\x22' ::
          (replaceChar ' ' ['\\', ' ']
            (replaceChar '\x27' ['\\', '\x27']
              (replaceChar '\x22' ['\\', '\\', '\\', '\x22']
                (replaceChar '\\' ['\\', '\\'] v.data))) ++ ['\\', '\x22'])) ∧
    ∀ k' v' : String, ∃ lit : List Char,
      get_build_flag k' v' = "-D" ++ k' ++ "_VALUE=" ++ String.mk lit := by
  constructor
  · have hb' : ¬(lowerL v.data = "true".data ∨ lowerL v.data = "false".data) := by
      intro h
      exact hb (h.imp (fun h1 => pyLower_eq_iff.mpr h1) (fun h1 => pyLower_eq_iff.mpr h1))
    unfold get_build_flag renderValue escapeValue
    rw [if_neg hb']
    rw [show isIntClassL v.data = false from hi, show isFloatL v.data = false from hf]
    simp
  · intro k' v'
    exact ⟨renderValue v'.data, rfl⟩

/-- C1 witness: the value `it\x27s "x" here` matches no earlier
classification and renders through the string branch. -/
theorem string_fallback_render_witness :
    get_build_flag "MSG" "it\x27s \x22a b\x22" =
      "-DMSG_VALUE=\\\x22it\\\x27s\\ \\\\\\\x22a\\ b\\\\\\\x22\\\x22" ∧
    ¬(pyLower "it\x27s \x22a b\x22" = "true" ∨ pyLower "it\x27s \x22a b\x22" = "false") := by
  constructor
  · have h := string_fallback_render "MSG" "it\x27s \x22a b\x22"
      (by decide) (by decide) (by decide)
    rw [h.1]
    rfl
  · decide

/-- C2: a value that is a run of digits, or a `-` followed by at least
one digit, and is not a boolean, renders unquoted and unchanged. -/
theorem int_render (k v : String)
    (hb : ¬(pyLower v = "true" ∨ pyLower v = "false"))
    (hi : isIntClass v = true) :
    get_build_flag k v = "-D" ++ k ++ "_VALUE=" ++ v := by
  have hb' : ¬(lowerL v.data = "true".data ∨ lowerL v.data = "false".data) := by
    intro h
    exact hb (h.imp (fun h1 => pyLower_eq_iff.mpr h1) (fun h1 => pyLower_eq_iff.mpr h1))
  unfold get_build_flag renderValue
  rw [if_neg hb', if_pos (show isIntClassL v.data = true from hi), mk_data]

/-- C2 witness: `42` and `-7` render unquoted. -/
theorem int_render_witness :
    get_build_flag "N" "42" = "-DN_VALUE=42" ∧
    get_build_flag "M" "-7" = "-DM_VALUE=-7" := by
  constructor
  · rw [int_render "N" "42" (by decide) (by decide)]
    rfl
  · rw [int_render "M" "-7" (by decide) (by decide)]
    rfl

/-- C3: a value equal to `true` or `false` case-insensitively renders as
the lowercase literal, unquoted; the rule needs no side condition about
the integer, float or string classifications, so it takes precedence over
all of them. -/
theorem bool_render (k v : String)
    (h : pyLower v = "true" ∨ pyLower v = "false") :
    get_build_flag k v = "-D" ++ k ++ "_VALUE=" ++ pyLower v := by
  have h' : lowerL v.data = "true".data ∨ lowerL v.data = "false".data :=
    h.imp (fun h1 => pyLower_eq_iff.mp h1) (fun h1 => pyLower_eq_iff.mp h1)
  unfold get_build_flag renderValue
  rw [if_pos h']
  rfl

/-- C3 witness: `TRUE` and `false` both render case-normalized. -/
theorem bool_render_witness :
    get_build_flag "B" "TRUE" = "-DB_VALUE=true" ∧
    get_build_flag "C" "false" = "-DC_VALUE=false" := by
  constructor
  · rw [bool_render "B" "TRUE" (by decide)]
    rfl
  · rw [bool_render "C" "false" (by decide)]
    rfl

/-- C4: a value that is not a boolean or integer, parses as a Python
float, and contains a `.` or `e`/`E`, renders unquoted exactly as
written. -/
theorem float_render (k v : String)
    (hb : ¬(pyLower v = "true" ∨ pyLower v = "false"))
    (hi : isIntClass v = false) (hf : is_float v = true) :
    get_build_flag k v = "-D" ++ k ++ "_VALUE=" ++ v := by
  have hb' : ¬(lowerL v.data = "true".data ∨ lowerL v.data = "false".data) := by
    intro h
    exact hb (h.imp (fun h1 => pyLower_eq_iff.mpr h1) (fun h1 => pyLower_eq_iff.mpr h1))
  unfold get_build_flag renderValue
  rw [if_neg hb', show isIntClassL v.data = false from hi,
    if_pos (show isFloatL v.data = true from hf), mk_data]
  simp

/-- C4 witness: `3.14` and `1e10` render unquoted as written. -/
theorem float_render_witness :
    get_build_flag "P" "3.14" = "-DP_VALUE=3.14" ∧
    get_build_flag "Q" "1e10" = "-DQ_VALUE=1e10" := by
  constructor
  · rw [float_render "P" "3.14" (by decide) (by decide) (by decide)]
    rfl
  · rw [float_render "Q" "1e10" (by decide) (by decide) (by decide)]
    rfl

/-! ### C6: absent configuration file -/

/-- C6: with no `.env` file the script leaves the pre-existing flags
unchanged, produces zero new flags, and prints exactly one informational
message, which names the path `<projectDir>/.env`.  (The model is a total
function, so no exception is possible.) -/
theorem absent_env_file (pd : String) (pre : List String) :
    runScript pd none pre = (pre, [noEnvMsg (osPathJoin pd ".env")]) ∧
    noEnvMsg (osPathJoin pd ".env") =
      "No .env file found at " ++ osPathJoin pd ".env" ++
        ". Using default values from config.cpp or build_flags in platformio.ini." := by
  exact ⟨rfl, rfl⟩

/-! ### Dictionary lemmas -/

theorem any_key_iff (m : List (String × String)) (k : String) :
    m.any (fun p => p.1 = k) = true ↔ k ∈ keysOf m := by
  simp [keysOf, List.any_eq_true]

theorem keysOf_dictInsert (m : List (String × String)) (k v : String) :
    keysOf (dictInsert m k v) = if k ∈ keysOf m then keysOf m else keysOf m ++ [k] := by
  unfold dictInsert
  by_cases hm : k ∈ keysOf m
  · rw [if_pos ((any_key_iff m k).mpr hm), if_pos hm]
    unfold keysOf
    rw [List.map_map]
    apply List.map_congr_left
    intro p _
    by_cases hpk : p.1 = k
    · simp [hpk]
    · simp [hpk]
  · rw [if_neg, if_neg hm]
    · simp [keysOf]
    · intro hc
      exact hm ((any_key_iff m k).mp hc)

theorem nodup_keys_dictInsert {m : List (String × String)} (k v : String)
    (h : (keysOf m).Nodup) : (keysOf (dictInsert m k v)).Nodup := by
  rw [keysOf_dictInsert]
  by_cases hm : k ∈ keysOf m
  · rwa [if_pos hm]
  · rw [if_neg hm]
    simp only [List.nodup_append, List.nodup_cons, List.not_mem_nil, not_false_iff,
      List.nodup_nil, and_true, true_and]
    exact ⟨h, fun a ha hak => hm ((List.mem_singleton.mp hak) ▸ ha)⟩

theorem lookup_cons_eq (k' : String) (p : String × String) (t : List (String × String)) :
    List.lookup k' (p :: t) = if k' = p.1 then some p.2 else List.lookup k' t := by
  rcases p with ⟨a, b⟩
  rw [List.lookup_cons]
  cases hb : k' == a with
  | true =>
    rw [if_pos (by simpa using hb)]
  | false =>
    rw [if_neg (by simpa using hb)]

theorem lookup_none_of_not_mem_keys {m : List (String × String)} {k : String}
    (h : ¬ k ∈ keysOf m) : List.lookup k m = none := by
  induction m with
  | nil => rfl
  | cons p t ih =>
    simp only [keysOf, List.map_cons, List.mem_cons] at h
    push_neg at h
    rw [lookup_cons_eq, if_neg h.1]
    exact ih (by simpa [keysOf] using h.2)

theorem lookup_map_over (m : List (String × String)) (k v k' : String) :
    List.lookup k' (m.map (fun p => if p.1 = k then (k, v) else p)) =
      if k' = k then (if k ∈ keysOf m then some v else none)
      else List.lookup k' m := by
  induction m with
  | nil => by_cases h : k' = k <;> simp [h, keysOf, List.lookup]
  | cons p t ih =>
    by_cases hp : p.1 = k
    · rw [List.map_cons, if_pos hp, lookup_cons_eq]
      by_cases hk : k' = k
      · rw [if_pos (show k' = (k, v).1 from hk), if_pos hk,
          if_pos (by simp only [keysOf, List.map_cons, List.mem_cons]; exact Or.inl hp.symm)]
      · have hkp : ¬ k' = p.1 := fun hc => hk (hc.trans hp)
        rw [if_neg (show ¬ k' = (k, v).1 from hk), ih, if_neg hk, lookup_cons_eq, if_neg hkp,
          if_neg hk]
    · rw [List.map_cons, if_neg hp, lookup_cons_eq]
      by_cases hk' : k' = p.1
      · rw [if_pos hk', if_neg (fun hc => hp ((hc.symm.trans hk').symm)),
          lookup_cons_eq, if_pos hk']
      · rw [if_neg hk', ih, lookup_cons_eq, if_neg hk']
        by_cases hk : k' = k
        · rw [if_pos hk, if_pos hk]
          by_cases hmem : k ∈ keysOf t
          · rw [if_pos hmem,
              if_pos (by simp only [keysOf, List.map_cons, List.mem_cons]; exact Or.inr hmem)]
          · rw [if_neg hmem, if_neg (by
              simp only [keysOf, List.map_cons, List.mem_cons]
              rintro (h1 | h1)
              · exact hp h1.symm
              · exact hmem h1)]
        · rw [if_neg hk, if_neg hk]

theorem lookup_append_single (m : List (String × String)) (k v k' : String) :
    List.lookup k' (m ++ [(k, v)]) =
      match List.lookup k' m with
      | some w => some w
      | none => if k' = k then some v else none := by
  induction m with
  | nil =>
    rw [List.nil_append, lookup_cons_eq]
    by_cases h : k' = k
    · rw [if_pos (show k' = (k, v).1 from h)]
      simp [h]
    · rw [if_neg (show ¬ k' = (k, v).1 from h)]
      simp [h]
  | cons p t ih =>
    rw [List.cons_append, lookup_cons_eq, lookup_cons_eq]
    by_cases h : k' = p.1
    · rw [if_pos h, if_pos h]
    · rw [if_neg h, if_neg h, ih]

theorem lookup_dictInsert (m : List (String × String)) (k v k' : String) :
    List.lookup k' (dictInsert m k v) =
      if k' = k then some v else List.lookup k' m := by
  unfold dictInsert
  by_cases hm : k ∈ keysOf m
  · rw [if_pos ((any_key_iff m k).mpr hm), lookup_map_over]
    by_cases hk : k' = k
    · rw [if_pos hk, if_pos hk, if_pos hm]
    · rw [if_neg hk, if_neg hk]
  · rw [if_neg (fun hc => hm ((any_key_iff m k).mp hc)), lookup_append_single]
    by_cases hk : k' = k
    · rw [lookup_none_of_not_mem_keys (hk ▸ hm), if_pos hk]
    · cases hl : List.lookup k' m with
      | some w =>
        show some w = if k' = k then some v else some w
        rw [if_neg hk]
      | none =>
        show (if k' = k then some v else none) = if k' = k then some v else none
        rfl

theorem mem_dictInsert {m : List (String × String)} {k v : String}
    {q : String × String} (h : q ∈ dictInsert m k v) : q ∈ m ∨ q = (k, v) := by
  unfold dictInsert at h
  by_cases hm : m.any (fun p => p.1 = k) = true
  · rw [if_pos hm] at h
    obtain ⟨p, hp, hq⟩ := List.mem_map.mp h
    by_cases hpk : p.1 = k
    · right
      rw [if_pos hpk] at hq
      exact hq.symm
    · left
      rw [if_neg hpk] at hq
      exact hq ▸ hp
  · rw [if_neg hm] at h
    rcases List.mem_append.mp h with h1 | h1
    · exact Or.inl h1
    · exact Or.inr (List.mem_singleton.mp h1)

/-! ### Fold characterization of the parse loop -/

theorem parse_config_eq (ls : List String) :
    ∀ n st, (parseLinesAux n st ls).1 = insFold st.1 (assigns ls) := by
  induction ls with
  | nil => intro n st; rfl
  | cons l ls ih =>
    intro n st
    show (parseLinesAux (n + 1) (parseStep n st l) ls).1 = _
    rw [ih]
    unfold assigns
    cases hc : classifyLine l with
    | skip =>
      rw [List.filterMap_cons_none (by simp [lineEntry, hc])]
      unfold parseStep
      rw [hc]
    | warn w =>
      rw [List.filterMap_cons_none (by simp [lineEntry, hc])]
      unfold parseStep
      rw [hc]
    | entry k v =>
      have he : lineEntry l = some (k, v) := by simp [lineEntry, hc]
      rw [List.filterMap_cons, he]
      unfold parseStep
      rw [hc]
      rfl

theorem parse_logs_eq (ls : List String) :
    ∀ n st, (parseLinesAux n st ls).2 = st.2 ++ warnsFrom n ls := by
  induction ls with
  | nil => intro n st; simp [parseLinesAux, warnsFrom]
  | cons l ls ih =>
    intro n st
    show (parseLinesAux (n + 1) (parseStep n st l) ls).2 =
      st.2 ++ ((match classifyLine l with
        | .warn k => [warnMsg k n]
        | _ => []) ++ warnsFrom (n + 1) ls)
    rw [ih]
    unfold parseStep
    cases hc : classifyLine l <;> simp

theorem lookup_insFold (ps : List (String × String)) :
    ∀ cfg k, List.lookup k (insFold cfg ps) =
      match ps.reverse.find? (fun p => p.1 == k) with
      | some p => some p.2
      | none => List.lookup k cfg := by
  induction ps with
  | nil => intro cfg k; rfl
  | cons p ps ih =>
    intro cfg k
    show List.lookup k (insFold (dictInsert cfg p.1 p.2) ps) = _
    rw [ih]
    simp only [List.reverse_cons, List.find?_append]
    cases hf : ps.reverse.find? (fun q => q.1 == k) with
    | some q => rfl
    | none =>
      simp only [Option.none_or]
      rw [lookup_dictInsert, List.find?_singleton]
      by_cases hk : p.1 = k
      · rw [if_pos hk.symm, if_pos (by simpa using hk)]
      · rw [if_neg (fun hc => hk hc.symm), if_neg (by simpa using hk)]

theorem keys_insFold (ps : List (String × String)) :
    ∀ cfg, keysOf (insFold cfg ps) =
      ps.foldl (fun acc p => if p.1 ∈ acc then acc else acc ++ [p.1]) (keysOf cfg) := by
  induction ps with
  | nil => intro cfg; rfl
  | cons p ps ih =>
    intro cfg
    show keysOf (insFold (dictInsert cfg p.1 p.2) ps) = _
    rw [ih, keysOf_dictInsert, List.foldl_cons]

theorem nodup_keys_insFold (ps : List (String × String)) :
    ∀ cfg, (keysOf cfg).Nodup → (keysOf (insFold cfg ps)).Nodup := by
  induction ps with
  | nil => intro cfg h; exact h
  | cons p ps ih => intro cfg h; exact ih _ (nodup_keys_dictInsert _ _ h)

theorem mem_keys_insFold (ps : List (String × String)) :
    ∀ cfg k, k ∈ keysOf (insFold cfg ps) → k ∈ keysOf cfg ∨ k ∈ ps.map Prod.fst := by
  induction ps with
  | nil => intro cfg k h; exact Or.inl h
  | cons p ps ih =>
    intro cfg k h
    rcases ih _ k h with h1 | h1
    · rw [keysOf_dictInsert] at h1
      by_cases hm : p.1 ∈ keysOf cfg
      · rw [if_pos hm] at h1
        exact Or.inl h1
      · rw [if_neg hm] at h1
        rcases List.mem_append.mp h1 with h2 | h2
        · exact Or.inl h2
        · exact Or.inr (by simp [List.mem_singleton.mp h2])
    · exact Or.inr (by simp [List.mem_cons]; right; simpa using h1)

theorem mem_insFold (ps : List (String × String)) :
    ∀ cfg q, q ∈ insFold cfg ps → q ∈ cfg ∨ q ∈ ps := by
  induction ps with
  | nil => intro cfg q h; exact Or.inl h
  | cons p ps ih =>
    intro cfg q h
    rcases ih _ q h with h1 | h1
    · rcases mem_dictInsert h1 with h2 | h2
      · exact Or.inl h2
      · exact Or.inr (by simp [h2])
    · exact Or.inr (List.mem_cons_of_mem _ h1)

/-! ### Strip and line-classification lemmas -/

theorem dropWhile_dropWhile (p : Char → Bool) (l : List Char) :
    (l.dropWhile p).dropWhile p = l.dropWhile p := by
  induction l with
  | nil => rfl
  | cons c l ih =>
    rw [List.dropWhile_cons]
    by_cases h : p c = true
    · rw [if_pos h]
      exact ih
    · rw [if_neg h, List.dropWhile_cons, if_neg h]

theorem stripL_idem (s : List Char) : stripL (stripL s) = stripL s :=
  dropWhile_dropWhile isSpaceB s

theorem stripR_idem (s : List Char) : stripR (stripR s) = stripR s := by
  unfold stripR stripL
  rw [List.reverse_reverse]
  exact congrArg List.reverse (dropWhile_dropWhile isSpaceB s.reverse)

theorem exists_prefix_stripR (m : List Char) : ∃ t, m = stripR m ++ t := by
  obtain ⟨s, hs⟩ := (List.dropWhile_suffix isSpaceB : stripL m.reverse <:+ m.reverse)
  refine ⟨s.reverse, ?_⟩
  have hs2 : m.reverse = s ++ stripL m.reverse := hs.symm
  calc m = m.reverse.reverse := (List.reverse_reverse m).symm
  _ = (s ++ stripL m.reverse).reverse := congrArg List.reverse hs2
  _ = (stripL m.reverse).reverse ++ s.reverse := List.reverse_append _ _

theorem stripL_of_split {m x t : List Char} (hm : stripL m = m) (hx : m = x ++ t) :
    stripL x = x := by
  cases x with
  | nil => rfl
  | cons c xs =>
    rw [hx] at hm
    rw [List.cons_append] at hm
    unfold stripL at hm ⊢
    rw [List.dropWhile_cons] at hm ⊢
    by_cases hc : isSpaceB c = true
    · exfalso
      have hle : (List.dropWhile isSpaceB (xs ++ t)).length ≤ (xs ++ t).length :=
        (List.dropWhile_suffix isSpaceB).sublist.length_le
      rw [if_pos hc] at hm
      rw [hm] at hle
      simp at hle
    · rw [if_neg hc]

theorem stripChars_idem (s : List Char) : stripChars (stripChars s) = stripChars s := by
  show stripR (stripL (stripR (stripL s))) = stripR (stripL s)
  obtain ⟨t, ht⟩ := exists_prefix_stripR (stripL s)
  rw [stripL_of_split (stripL_idem s) ht]
  exact stripR_idem _

theorem classifyLine_entry {raw k v : String} (h : classifyLine raw = .entry k v) :
    matchKey k.data = true ∧ stripChars v.data = v.data := by
  simp only [classifyLine] at h
  split at h
  · exact absurd h (by simp)
  · split at h
    · exact absurd h (by simp)
    · split at h
      · split at h
        · exact absurd h (by simp)
        · split at h
          · rename_i hmk
            rw [LineResult.entry.injEq] at h
            refine ⟨?_, ?_⟩
            · rw [← h.1]
              exact hmk
            · rw [← h.2]
              exact stripChars_idem _
          · exact absurd h (by simp)
      · exact absurd h (by simp)

theorem lineEntry_entry {raw k v : String} (h : lineEntry raw = some (k, v)) :
    matchKey k.data = true ∧ stripChars v.data = v.data := by
  unfold lineEntry at h
  cases hc : classifyLine raw with
  | skip => rw [hc] at h; exact absurd h (by simp)
  | warn w => rw [hc] at h; exact absurd h (by simp)
  | entry k' v' =>
    rw [hc] at h
    simp only [Option.some.injEq, Prod.mk.injEq] at h
    rw [← h.1, ← h.2]
    exact classifyLine_entry hc

theorem mem_parse_entries {lines : List String} {k v : String}
    (h : (k, v) ∈ (parse_env_file (some lines)).1) :
    ∃ raw ∈ lines, lineEntry raw = some (k, v) := by
  have hc : (parse_env_file (some lines)).1 = insFold [] (assigns lines) :=
    parse_config_eq lines 1 ([], [])
  rw [hc] at h
  rcases mem_insFold _ _ _ h with h1 | h1
  · exact absurd h1 (by simp)
  · exact List.mem_filterMap.mp h1

/-! ### C7: duplicate keys -/

/-- C7: for every file and key, the parsed config has pairwise distinct
keys (so at most one entry per key), the entry's value is the value of
the last accepted assignment to that key in file order, and the key order
is the order of first insertion (update in place, not re-append). -/
theorem duplicate_keys_last_wins (lines : List String) (k : String) :
    (keysOf (parse_env_file (some lines)).1).Nodup ∧
    List.lookup k (parse_env_file (some lines)).1 =
      ((assigns lines).reverse.find? (fun p => p.1 == k)).map Prod.snd ∧
    keysOf (parse_env_file (some lines)).1 = firstKeys (assigns lines) := by
  have hc : (parse_env_file (some lines)).1 = insFold [] (assigns lines) :=
    parse_config_eq lines 1 ([], [])
  refine ⟨?_, ?_, ?_⟩
  · rw [hc]
    exact nodup_keys_insFold _ _ (by simp [keysOf])
  · rw [hc, lookup_insFold]
    cases hf : (assigns lines).reverse.find? (fun p => p.1 == k) with
    | some q => rfl
    | none => rfl
  · rw [hc, keys_insFold]
    rfl

/-! ### C8: invalid keys -/

/-- C8: a key failing the identifier pattern never reaches the parsed
config; a line classified as an invalid-key warning contributes a printed
warning carrying its 1-based line number; and removing a non-entry line
leaves the parsed config of the remaining lines unchanged, so valid
entries on other lines are unaffected. -/
theorem invalid_key_excluded (lines : List String) (k : String)
    (hk : matchKey k.data = false) :
    ¬ k ∈ keysOf (parse_env_file (some lines)).1 ∧
    (∀ i, (hi : i < lines.length) → classifyLine lines[i] = LineResult.warn k →
      warnMsg k (i + 1) ∈ (parse_env_file (some lines)).2) ∧
    (∀ pre post bad, lineEntry bad = none →
      (parse_env_file (some (pre ++ bad :: post))).1 =
        (parse_env_file (some (pre ++ post))).1) := by
  refine ⟨?_, ?_, ?_⟩
  · intro hmem
    have hc : (parse_env_file (some lines)).1 = insFold [] (assigns lines) :=
      parse_config_eq lines 1 ([], [])
    rw [hc] at hmem
    rcases mem_keys_insFold _ _ _ hmem with h1 | h1
    · simp [keysOf] at h1
    · obtain ⟨p, hp, hpk⟩ := List.mem_map.mp h1
      rcases p with ⟨pk, pv⟩
      obtain ⟨raw, _, he⟩ := List.mem_filterMap.mp hp
      have hv := (lineEntry_entry he).1
      rw [show pk = k from hpk] at hv
      rw [hv] at hk
      exact Bool.true_eq_false.mp hk
  · have hlog : (parse_env_file (some lines)).2 = warnsFrom 1 lines := by
      have h0 := parse_logs_eq lines 1 ([], [])
      simpa using h0
    have hgen : ∀ (ls : List String) (n i : Nat), (hi : i < ls.length) →
        classifyLine ls[i] = LineResult.warn k → warnMsg k (n + i) ∈ warnsFrom n ls := by
      intro ls
      induction ls with
      | nil =>
        intro n i hi
        exact absurd hi (by simp)
      | cons l t ih =>
        intro n i hi hcl
        cases i with
        | zero =>
          rw [List.getElem_cons_zero] at hcl
          have hw : warnsFrom n (l :: t) = [warnMsg k n] ++ warnsFrom (n + 1) t := by
            show (match classifyLine l with
              | LineResult.warn w => [warnMsg w n]
              | _ => []) ++ warnsFrom (n + 1) t = _
            rw [hcl]
          rw [Nat.add_zero, hw]
          exact List.mem_append_left _ (List.mem_singleton_self _)
        | succ j =>
          have hj : j < t.length := Nat.lt_of_succ_lt_succ (by simpa using hi)
          have hcl' : classifyLine t[j] = LineResult.warn k := by
            rw [List.getElem_cons_succ] at hcl
            exact hcl
          have hmem := ih (n + 1) j hj hcl'
          have harr : n + (j + 1) = (n + 1) + j := by omega
          have hw : warnsFrom n (l :: t) =
              (match classifyLine l with
               | LineResult.warn w => [warnMsg w n]
               | _ => []) ++ warnsFrom (n + 1) t := rfl
          rw [harr, hw]
          exact List.mem_append_right _ hmem
    intro i hi hcl
    rw [hlog]
    have h2 := hgen lines 1 i hi hcl
    rwa [Nat.add_comm] at h2
  · intro pre post bad hbad
    have h1 : (parse_env_file (some (pre ++ bad :: post))).1 =
        insFold [] (assigns (pre ++ bad :: post)) := parse_config_eq _ 1 ([], [])
    have h2 : (parse_env_file (some (pre ++ post))).1 =
        insFold [] (assigns (pre ++ post)) := parse_config_eq _ 1 ([], [])
    rw [h1, h2]
    unfold assigns
    rw [List.filterMap_append, List.filterMap_append, List.filterMap_cons, hbad]

/-- C8 witness: `1BAD` is excluded from the config of
`["GOOD_KEY=1", "1BAD=2"]`, its warning names line 2, and `GOOD_KEY` is
still accepted. -/
theorem invalid_key_excluded_witness :
    matchKey "1BAD".data = false ∧
    ¬ "1BAD" ∈ keysOf (parse_env_file (some ["GOOD_KEY=1", "1BAD=2"])).1 ∧
    warnMsg "1BAD" 2 ∈ (parse_env_file (some ["GOOD_KEY=1", "1BAD=2"])).2 ∧
    ("GOOD_KEY", "1") ∈ (parse_env_file (some ["GOOD_KEY=1", "1BAD=2"])).1 := by
  refine ⟨by decide, (invalid_key_excluded _ "1BAD" (by decide)).1, ?_, by decide⟩
  exact (invalid_key_excluded ["GOOD_KEY=1", "1BAD=2"] "1BAD" (by decide)).2.1 1
    (by decide) (by decide)

/-! ### C5: masking of sensitive values -/

/-- C5: the report line for the `i`-th accepted entry prints the key with
the fixed `****` placeholder exactly when the key's uppercasing contains
one of PASSWORD, TOKEN, SECRET, WEBHOOK, and prints the key with its
value otherwise; the flag emitted at the same position is built from the
real, unmasked value; and the script output is exactly these flags and
report lines. -/
theorem sensitive_value_masked (cfg : List (String × String)) (k v : String) (i : Nat)
    (hi : i < cfg.length) (hkv : cfg[i] = (k, v)) :
    (cfg.map reportLine)[i]? =
      some (if maskSensitive k then "  " ++ k ++ ": ****" else "  " ++ k ++ ": " ++ v) ∧
    (cfg.map (fun q => get_build_flag q.1 q.2))[i]? = some (get_build_flag k v) ∧
    (∀ pd lines pre, (parse_env_file (some lines)).1 = cfg → cfg ≠ [] →
      runScript pd (some lines) pre =
        (pre ++ cfg.map (fun q => get_build_flag q.1 q.2),
         (parse_env_file (some lines)).2 ++ [loadMsg (osPathJoin pd ".env")] ++
           cfg.map reportLine)) := by
  refine ⟨?_, ?_, ?_⟩
  · rw [List.getElem?_map, List.getElem?_eq_getElem hi, hkv]
    rfl
  · rw [List.getElem?_map, List.getElem?_eq_getElem hi, hkv]
    rfl
  · intro pd lines pre hp hne
    have hce : cfg.isEmpty = false := by
      cases cfg
      · exact absurd rfl hne
      · rfl
    simp only [runScript]
    rw [hp, hce]
    simp

/-- C5 witness: in `[("WIFI_SECRET", "abc"), ("HOST", "h1")]` the first
report line is masked while its flag carries the real value. -/
theorem sensitive_value_masked_witness :
    ([("WIFI_SECRET", "abc"), ("HOST", "h1")].map reportLine)[0]? =
      some "  WIFI_SECRET: ****" ∧
    ([("WIFI_SECRET", "abc"), ("HOST", "h1")].map
      (fun q => get_build_flag q.1 q.2))[0]? =
      some "-DWIFI_SECRET_VALUE=\\\x22abc\\\x22" := by
  have h := sensitive_value_masked [("WIFI_SECRET", "abc"), ("HOST", "h1")]
    "WIFI_SECRET" "abc" 0 (by decide) (by decide)
  refine ⟨?_, ?_⟩
  · rw [h.1]
    rfl
  · rw [h.2.1]
    rfl

/-! ### C10: present but entryless configuration file -/

/-- C10 counterexample: a present file whose only key is invalid yields an
empty config, yet its log output differs from the missing-file run — the
invalid-key warning is printed before the informational message — so the
two runs are not observationally indistinguishable. -/
theorem entryless_file_not_indistinguishable :
    (parse_env_file (some ["1BAD=2"])).1 = [] ∧
    runScript "/p" (some ["1BAD=2"]) [] ≠ runScript "/p" none [] := by
  decide

/-- C10 (amended): when parsing yields no entries the script appends no
flags and ends its log with the same informational message naming the
path as for an absent file; when the file moreover produced no warnings
(e.g. it is empty or holds only blank or comment lines) the run is fully
identical to the missing-file run. -/
theorem entryless_file_defaults (pd : String) (pre : List String)
    (lines : List String) (h : (parse_env_file (some lines)).1 = []) :
    (runScript pd (some lines) pre).1 = pre ∧
    (runScript pd (some lines) pre).2 =
      (parse_env_file (some lines)).2 ++ [noEnvMsg (osPathJoin pd ".env")] ∧
    ((parse_env_file (some lines)).2 = [] →
      runScript pd (some lines) pre = runScript pd none pre) := by
  have hce : (parse_env_file (some lines)).1.isEmpty = true := by
    rw [h]
    rfl
  have hrun : runScript pd (some lines) pre =
      (pre, (parse_env_file (some lines)).2 ++ [noEnvMsg (osPathJoin pd ".env")]) := by
    simp only [runScript]
    rw [hce]
    simp
  refine ⟨by rw [hrun], by rw [hrun], ?_⟩
  intro h2
  rw [hrun, h2]
  rfl

/-- C10 witness: a file of one comment line and one blank line parses to
no entries and behaves exactly like a missing file. -/
theorem entryless_file_defaults_witness :
    (parse_env_file (some ["# c", "   "])).1 = [] ∧
    runScript "/p" (some ["# c", "   "]) ["-DX"] = runScript "/p" none ["-DX"] := by
  refine ⟨by decide, ?_⟩
  exact (entryless_file_defaults "/p" ["-DX"] ["# c", "   "] (by decide)).2.2 (by decide)

/-! ### C9 groundwork: character and shell-unescape lemmas -/

theorem shellUnescape_cons {c : Char} (l : List Char) (hc : c ≠ '\\') :
    shellUnescape (c :: l) = c :: shellUnescape l := by
  cases l with
  | nil => rfl
  | cons c2 rest =>
    simp only [shellUnescape]
    rw [if_neg hc]

theorem shellUnescape_cons_bs (x : Char) (l : List Char) :
    shellUnescape ('\\' :: x :: l) = x :: shellUnescape l := by
  simp [shellUnescape]

theorem shellUnescape_id {s : List Char} (h : ¬ '\\' ∈ s) : shellUnescape s = s := by
  induction s with
  | nil => rfl
  | cons c rest ih =>
    have hc : c ≠ '\\' := fun hc => h (hc ▸ List.mem_cons_self c rest)
    rw [shellUnescape_cons rest hc, ih (fun hm => h (List.mem_cons_of_mem _ hm))]

theorem isDigit_toNat_le {c : Char} (h : c.isDigit = true) : c.toNat ≤ 57 := by
  unfold Char.isDigit at h
  rw [Bool.and_eq_true] at h
  exact UInt32.toNat_le_of_le (by norm_num [UInt32.size]) (of_decide_eq_true h.2)

theorem lowerChar_of_isDigit {c : Char} (h : c.isDigit = true) : lowerChar c = c := by
  unfold lowerChar
  rw [if_neg]
  intro hcon
  have h1 := isDigit_toNat_le h
  omega

theorem not_isDigit_of_lower_e {x : Char} (h : lowerChar x = 'e') : x.isDigit = false := by
  by_contra hcon
  have hd : x.isDigit = true := by
    cases hx : x.isDigit
    · exact absurd hx hcon
    · rfl
  rw [lowerChar_of_isDigit hd] at h
  rw [h] at hd
  exact absurd hd (by decide)

theorem chompDigits_cons (u : Bool) (c : Char) (rest : List Char) :
    chompDigits u (c :: rest) =
      if c.isDigit then chompDigits u rest
      else if u && c == '_' then
        match rest with
        | [] => c :: rest
        | d :: rest2 => if d.isDigit then chompDigits u rest2 else c :: rest
      else c :: rest := by
  rw [chompDigits.eq_def]

theorem mem_of_mem_chompDigits :
    ∀ (n : Nat) (u : Bool) (s : List Char), s.length ≤ n →
      ∀ c, c ∈ chompDigits u s → c ∈ s := by
  intro n
  induction n with
  | zero =>
    intro u s hs c hc
    rw [List.length_eq_zero.mp (Nat.le_zero.mp hs)] at hc ⊢
    exact hc
  | succ n ih =>
    intro u s hs c hc
    cases s with
    | nil => exact hc
    | cons a rest =>
      rw [chompDigits_cons] at hc
      by_cases ha : a.isDigit = true
      · rw [if_pos ha] at hc
        exact List.mem_cons_of_mem _ (ih u rest (by simpa using hs) c hc)
      · rw [if_neg ha] at hc
        by_cases hu : (u && a == '_') = true
        · rw [if_pos hu] at hc
          cases rest with
          | nil => exact hc
          | cons d rest2 =>
            have hc2 : c ∈ if d.isDigit = true then chompDigits u rest2
                else a :: d :: rest2 := hc
            by_cases hd : d.isDigit = true
            · rw [if_pos hd] at hc2
              have hlen : rest2.length ≤ n := by
                simp at hs
                omega
              exact List.mem_cons_of_mem _ (List.mem_cons_of_mem _ (ih u rest2 hlen c hc2))
            · rw [if_neg hd] at hc2
              exact hc2
        · rw [if_neg hu] at hc
          exact hc

theorem chompDigits_noU :
    ∀ (n : Nat) (s : List Char), s.length ≤ n → ¬ '_' ∈ s →
      chompDigits true s = chompDigits false s := by
  intro n
  induction n with
  | zero =>
    intro s hs _
    rw [List.length_eq_zero.mp (Nat.le_zero.mp hs), chompDigits.eq_def, chompDigits.eq_def]
  | succ n ih =>
    intro s hs hU
    cases s with
    | nil => rfl
    | cons a rest =>
      rw [chompDigits_cons, chompDigits_cons]
      by_cases ha : a.isDigit = true
      · rw [if_pos ha, if_pos ha]
        exact ih rest (by simpa using hs) (fun hm => hU (List.mem_cons_of_mem _ hm))
      · have hau : a ≠ '_' := fun h => hU (h ▸ List.mem_cons_self a rest)
        rw [if_neg ha, if_neg ha,
          if_neg (by simp [hau]), if_neg (by simp)]

theorem expOk_noU {s : List Char} (h : ¬ '_' ∈ s) : expOk true s = expOk false s := by
  cases s with
  | nil => rfl
  | cons c rest =>
    cases rest with
    | nil => rfl
    | cons s1 rest2 =>
      have h1 : ¬ '_' ∈ (s1 :: rest2) := fun hm => h (List.mem_cons_of_mem _ hm)
      have h3 : ¬ '_' ∈ rest2 := fun hm => h1 (List.mem_cons_of_mem _ hm)
      have h2 : chompDigits true (s1 :: rest2) = chompDigits false (s1 :: rest2) :=
        chompDigits_noU (s1 :: rest2).length _ (Nat.le_refl _) h1
      have h4 : chompDigits true rest2 = chompDigits false rest2 :=
        chompDigits_noU rest2.length _ (Nat.le_refl _) h3
      simp only [expOk, h2, h4]

theorem fracTail_noU {r2 : List Char} (h : ¬ '_' ∈ r2) :
    fracTail true r2 = fracTail false r2 := by
  cases r2 with
  | nil => rfl
  | cons d rest =>
    simp only [fracTail, chompDigits_noU (d :: rest).length (d :: rest) (Nat.le_refl _) h]

theorem mem_fracTail {r2 : List Char} {c : Char} (h : c ∈ fracTail false r2) : c ∈ r2 := by
  cases r2 with
  | nil => exact h
  | cons d rest =>
    simp only [fracTail] at h
    by_cases hd : d.isDigit = true
    · rw [if_pos hd] at h
      exact mem_of_mem_chompDigits (d :: rest).length false _ (Nat.le_refl _) c h
    · rw [if_neg hd] at h
      exact h

theorem afterIntPart_noU {r : List Char} (h : ¬ '_' ∈ r) :
    afterIntPart true r = afterIntPart false r := by
  cases r with
  | nil => rfl
  | cons c r2 =>
    have h2 : ¬ '_' ∈ r2 := fun hm => h (List.mem_cons_of_mem _ hm)
    have e1 : fracTail true r2 = fracTail false r2 := fracTail_noU h2
    have e2 : expOk true (fracTail false r2) = expOk false (fracTail false r2) :=
      expOk_noU (fun hm => h2 (mem_fracTail hm))
    have e3 : expOk true (c :: r2) = expOk false (c :: r2) := expOk_noU h
    simp only [afterIntPart, e1, e2, e3]

theorem pyNumber_noU {s : List Char} (h : ¬ '_' ∈ s) :
    pyNumber true s = pyNumber false s := by
  cases s with
  | nil => rfl
  | cons c rest =>
    have h2 : ¬ '_' ∈ rest := fun hm => h (List.mem_cons_of_mem _ hm)
    have e1 : chompDigits true rest = chompDigits false rest :=
      chompDigits_noU rest.length _ (Nat.le_refl _) h2
    have e2 : chompDigits true (c :: rest) = chompDigits false (c :: rest) :=
      chompDigits_noU (c :: rest).length _ (Nat.le_refl _) h
    have e3 : expOk true (chompDigits false rest) = expOk false (chompDigits false rest) :=
      expOk_noU (fun hm => h2 (mem_of_mem_chompDigits rest.length false _ (Nat.le_refl _) _ hm))
    have e4 : afterIntPart true (chompDigits false (c :: rest)) =
        afterIntPart false (chompDigits false (c :: rest)) :=
      afterIntPart_noU
        (fun hm => h (mem_of_mem_chompDigits (c :: rest).length false _ (Nat.le_refl _) _ hm))
    simp only [pyNumber, e1, e2, e3, e4]

theorem not_isEmpty_of_ne {s : List Char} (h : s ≠ []) : s.isEmpty = false := by
  cases s with
  | nil => exact absurd rfl h
  | cons c t => rfl

theorem allDigits_parts {s : List Char} (h : allDigits s = true) :
    s ≠ [] ∧ s.all Char.isDigit = true := by
  unfold allDigits at h
  rw [Bool.and_eq_true] at h
  refine ⟨?_, h.2⟩
  intro he
  rw [he] at h
  simp at h

theorem cParseInt_intClass {s : List Char} (h : isIntClassL s = true) :
    cParseInt s = some (intValOf s) := by
  unfold isIntClassL at h
  rw [Bool.or_eq_true] at h
  cases s with
  | nil =>
    rcases h with h | h
    · exact absurd rfl (allDigits_parts h).1
    · rw [Bool.and_eq_true] at h
      exact absurd h.2 (by decide)
  | cons c rest =>
    rcases h with h | h
    · have hall := (allDigits_parts h).2
      have hc : c.isDigit = true := by
        rw [List.all_cons, Bool.and_eq_true] at hall
        exact hall.1
      have hcm : c ≠ '-' := by
        intro hcm
        rw [hcm] at hc
        exact absurd hc (by decide)
      simp only [cParseInt, intValOf]
      rw [if_neg hcm, if_neg hcm, if_pos (allDigits_parts h).2]
    · rw [Bool.and_eq_true] at h
      have h2 := h.2
      rw [Bool.and_eq_true] at h2
      have hcm : c = '-' := by simpa using h2.1
      obtain ⟨hne, hall⟩ := allDigits_parts h2.2
      simp only [cParseInt, intValOf]
      rw [if_pos hcm, if_pos hcm, if_pos (by
        rw [Bool.and_eq_true]
        exact ⟨by rw [not_isEmpty_of_ne hne]; rfl, hall⟩)]

theorem cParseInt_none_of_dotE {s : List Char}
    (hcont : (s.contains '.' || (lowerL s).contains 'e') = true) : cParseInt s = none := by
  have hx : ∃ x ∈ s, x = '.' ∨ lowerChar x = 'e' := by
    rw [Bool.or_eq_true] at hcont
    rcases hcont with h | h
    · exact ⟨'.', List.elem_iff.mp h, Or.inl rfl⟩
    · obtain ⟨x, hxs, hxe⟩ := List.mem_map.mp (List.elem_iff.mp h)
      exact ⟨x, hxs, Or.inr hxe⟩
  obtain ⟨x, hxs, hxc⟩ := hx
  have hxd : x.isDigit = false := by
    rcases hxc with h | h
    · rw [h]
      decide
    · exact not_isDigit_of_lower_e h
  cases s with
  | nil => exact absurd hxs (by simp)
  | cons c rest =>
    have hxm : x ≠ '-' := by
      intro hxm
      rcases hxc with h | h
      · rw [hxm] at h
        exact absurd h (by decide)
      · rw [hxm] at h
        exact absurd h (by decide)
    simp only [cParseInt]
    by_cases hc : c = '-'
    · rw [if_pos hc]
      rw [if_neg]
      intro hcon
      rw [Bool.and_eq_true] at hcon
      have hxr : x ∈ rest := by
        rcases List.mem_cons.mp hxs with h | h
        · exact absurd (h.trans hc) hxm
        · exact h
      have := List.all_eq_true.mp hcon.2 x hxr
      rw [hxd] at this
      exact Bool.false_ne_true this
    · rw [if_neg hc]
      rw [if_neg]
      intro hcon
      have := List.all_eq_true.mp hcon x hxs
      rw [hxd] at this
      exact Bool.false_ne_true this

theorem mem_stripSign {s : List Char} {x : Char} (hx : x ∈ s) (h1 : x ≠ '+')
    (h2 : x ≠ '-') : x ∈ stripSign s := by
  cases s with
  | nil => exact hx
  | cons a rest =>
    simp only [stripSign]
    by_cases ha : (a = '+' || a = '-') = true
    · rw [if_pos ha]
      rcases List.mem_cons.mp hx with h | h
      · exfalso
        rw [Bool.or_eq_true] at ha
        rcases ha with ha | ha
        · exact h1 (h.trans (of_decide_eq_true ha))
        · exact h2 (h.trans (of_decide_eq_true ha))
      · exact h
    · rw [if_neg ha]
      exact hx

theorem not_mem_stripSign {s : List Char} {x : Char} (hx : ¬ x ∈ s) :
    ¬ x ∈ stripSign s := by
  intro hc
  cases s with
  | nil => exact hx hc
  | cons a rest =>
    simp only [stripSign] at hc
    by_cases ha : (a = '+' || a = '-') = true
    · rw [if_pos ha] at hc
      exact hx (List.mem_cons_of_mem _ hc)
    · rw [if_neg ha] at hc
      exact hx hc

/-! ### C9 groundwork: the string branch -/

theorem replaceChar_cons (p : Char) (r : List Char) (c : Char) (s : List Char) :
    replaceChar p r (c :: s) = (if c = p then r else [c]) ++ replaceChar p r s := by
  simp [replaceChar]

theorem replaceChar_append (p : Char) (r : List Char) (s t : List Char) :
    replaceChar p r (s ++ t) = replaceChar p r s ++ replaceChar p r t := by
  simp [replaceChar]

theorem escapeValue_cons (c : Char) (rest : List Char) (hc : c ≠ '\\') :
    escapeValue (c :: rest) = esc1 c ++ escapeValue rest := by
  unfold escapeValue
  rw [replaceChar_cons, if_neg hc, replaceChar_append, replaceChar_append, replaceChar_append]
  congr 1
  by_cases h1 : c = '\x22'
  · subst h1
    decide
  · by_cases h2 : c = '\x27'
    · subst h2
      decide
    · by_cases h3 : c = ' '
      · subst h3
        decide
      · simp [replaceChar, esc1, h1, h2, h3]

theorem shellUnescape_escape {s : List Char} (h : ¬ '\\' ∈ s) :
    shellUnescape (escapeValue s ++ ['\\', '\x22']) = qesc s ++ ['\x22'] := by
  induction s with
  | nil => decide
  | cons c rest ih =>
    have hc : c ≠ '\\' := fun hc => h (hc ▸ List.mem_cons_self c rest)
    have hrest : ¬ '\\' ∈ rest := fun hm => h (List.mem_cons_of_mem _ hm)
    rw [escapeValue_cons c rest hc, List.append_assoc]
    have hq : qesc (c :: rest) = (if c = '\x22' then ['\\', '\x22'] else [c]) ++ qesc rest := by
      simp [qesc]
    rw [hq]
    by_cases h1 : c = '\x22'
    · subst h1
      show shellUnescape
          ('\\' :: '\\' :: '\\' :: '\x22' :: (escapeValue rest ++ ['\\', '\x22'])) = _
      rw [shellUnescape_cons_bs, shellUnescape_cons_bs, ih hrest]
      simp
    · by_cases h2 : c = '\x27'
      · subst h2
        show shellUnescape ('\\' :: '\x27' :: (escapeValue rest ++ ['\\', '\x22'])) = _
        rw [shellUnescape_cons_bs, ih hrest]
        simp [h1]
      · by_cases h3 : c = ' '
        · subst h3
          show shellUnescape ('\\' :: ' ' :: (escapeValue rest ++ ['\\', '\x22'])) = _
          rw [shellUnescape_cons_bs, ih hrest]
          simp [h1]
        · show shellUnescape ((esc1 c) ++ (escapeValue rest ++ ['\\', '\x22'])) = _
          rw [show esc1 c = [c] from by simp [esc1, h1, h2, h3]]
          rw [List.singleton_append, shellUnescape_cons _ hc, ih hrest]
          rw [if_neg h1]
          simp

theorem cStrBody_cons_quote (rest : List Char) :
    cStrBody ('\x22' :: rest) = if rest.isEmpty then some [] else none := by
  cases rest with
  | nil => simp [cStrBody]
  | cons c2 rest2 => simp [cStrBody]

theorem cStrBody_cons_bs (e : Char) (rest2 : List Char) :
    cStrBody ('\\' :: e :: rest2) =
      match cEsc e, cStrBody rest2 with
      | some u, some t => some (u :: t)
      | _, _ => none := by
  simp only [cStrBody]
  simp

theorem cStrBody_cons_other {c : Char} (rest : List Char) (h1 : c ≠ '\x22')
    (h2 : c ≠ '\\') :
    cStrBody (c :: rest) =
      match cStrBody rest with
      | some t => some (c :: t)
      | none => none := by
  cases rest with
  | nil =>
    simp only [cStrBody]
    rw [if_neg h1]
  | cons c2 rest2 =>
    simp only [cStrBody]
    rw [if_neg h1, if_neg h2]

theorem cStrBody_qesc {s : List Char} (h : ¬ '\\' ∈ s) :
    cStrBody (qesc s ++ ['\x22']) = some s := by
  induction s with
  | nil => decide
  | cons c rest ih =>
    have hc : c ≠ '\\' := fun hc => h (hc ▸ List.mem_cons_self c rest)
    have hrest : ¬ '\\' ∈ rest := fun hm => h (List.mem_cons_of_mem _ hm)
    have hq : qesc (c :: rest) = (if c = '\x22' then ['\\', '\x22'] else [c]) ++ qesc rest := by
      simp [qesc]
    rw [hq]
    by_cases h1 : c = '\x22'
    · subst h1
      rw [if_pos rfl, List.append_assoc, List.cons_append, List.cons_append,
        List.nil_append, cStrBody_cons_bs, ih hrest]
      rfl
    · rw [if_neg h1, List.singleton_append, List.cons_append,
        cStrBody_cons_other _ h1 hc, ih hrest]

theorem cFloatTok_of_isFloat {s : List Char} (hstrip : stripChars s = s)
    (hf : isFloatL s = true) (hU : ¬ '_' ∈ s) : cFloatTok s = true := by
  unfold isFloatL at hf
  rw [Bool.and_eq_true] at hf
  obtain ⟨hcore, hcont⟩ := hf
  simp only [pyFloatCore] at hcore
  rw [hstrip] at hcore
  rw [Bool.or_eq_true] at hcore
  have hUs : ¬ '_' ∈ stripSign s := not_mem_stripSign hU
  rcases hcore with hinf | hnum
  · exfalso
    unfold isInfNan at hinf
    rw [Bool.or_eq_true, Bool.or_eq_true] at hinf
    have hxl : ∃ x ∈ stripSign s, (x = '.' ∨ lowerChar x = 'e') := by
      rw [Bool.or_eq_true] at hcont
      rcases hcont with h | h
      · exact ⟨'.', mem_stripSign (List.elem_iff.mp h) (by decide) (by decide), Or.inl rfl⟩
      · obtain ⟨x, hxs, hxe⟩ := List.mem_map.mp (List.elem_iff.mp h)
        have hx1 : x ≠ '+' := by
          intro hh
          rw [hh] at hxe
          exact absurd hxe (by decide)
        have hx2 : x ≠ '-' := by
          intro hh
          rw [hh] at hxe
          exact absurd hxe (by decide)
        exact ⟨x, mem_stripSign hxs hx1 hx2, Or.inr hxe⟩
    obtain ⟨x, hxm, hxc⟩ := hxl
    have hlm : lowerChar x ∈ lowerL (stripSign s) := List.mem_map_of_mem _ hxm
    have hbad : lowerChar x = '.' ∨ lowerChar x = 'e' := by
      rcases hxc with h | h
      · left
        rw [h]
        decide
      · exact Or.inr h
    rcases hinf with (h | h) | h
    · rw [eq_of_beq h] at hlm
      rcases hbad with hbb | hbb <;> rw [hbb] at hlm <;> exact absurd hlm (by decide)
    · rw [eq_of_beq h] at hlm
      rcases hbad with hbb | hbb <;> rw [hbb] at hlm <;> exact absurd hlm (by decide)
    · rw [eq_of_beq h] at hlm
      rcases hbad with hbb | hbb <;> rw [hbb] at hlm <;> exact absurd hlm (by decide)
  · unfold cFloatTok
    rw [Bool.and_eq_true]
    refine ⟨?_, hcont⟩
    rw [← pyNumber_noU hUs]
    exact hnum

/-! ### C9: the round-trip property -/

/-- C9 counterexample: on the valid lines `K=a\b` and `F=1_0.5` the
round-trip fails.  The backslash of `a\b` is escaped for the shell only,
so the C-like reparse reads `\b` as a backspace escape; `1_0.5` is a
valid Python float rendered verbatim, but its underscore makes it no
token of a C-like grammar. -/
theorem roundtrip_counterexample :
    ("K", "a\\b") ∈ (parse_env_file (some ["K=a\\b"])).1 ∧
    reparse (renderValue "a\\b".data) ≠ some (interp "a\\b") ∧
    ("F", "1_0.5") ∈ (parse_env_file (some ["F=1_0.5"])).1 ∧
    reparse (renderValue "1_0.5".data) ≠ some (interp "1_0.5") := by
  refine ⟨by decide, by decide, by decide, by decide⟩

/-- C9 (amended): for every accepted `key=value` entry, rendering and
re-parsing the literal in a C-like grammar (shell backslash-unescaping,
then C token reading) returns the value the classification assigned,
for all four kinds — provided the value contains no backslash, and, when
it is classified as a float, no underscore. -/
theorem roundtrip_amended (lines : List String) (k v : String)
    (hkv : (k, v) ∈ (parse_env_file (some lines)).1)
    (hbs : ¬ '\\' ∈ v.data)
    (hus : is_float v = true → ¬ '_' ∈ v.data) :
    get_build_flag k v = "-D" ++ k ++ "_VALUE=" ++ String.mk (renderValue v.data) ∧
    reparse (renderValue v.data) = some (interp v) := by
  refine ⟨rfl, ?_⟩
  have hstrip : stripChars v.data = v.data := by
    obtain ⟨raw, -, he⟩ := mem_parse_entries hkv
    exact (lineEntry_entry he).2
  by_cases hb : lowerL v.data = "true".data ∨ lowerL v.data = "false".data
  · have hrv : renderValue v.data = lowerL v.data := by
      unfold renderValue
      rw [if_pos hb]
    rcases hb with hb | hb
    · have hint : interp v = CValue.bool true := by
        unfold interp
        rw [if_pos (show pyLower v = "true" from by unfold pyLower; rw [hb])]
      rw [hrv, hb, hint]
      decide
    · have hint : interp v = CValue.bool false := by
        unfold interp
        rw [if_neg (show ¬ pyLower v = "true" from by
            unfold pyLower
            rw [hb]
            decide),
          if_pos (show pyLower v = "false" from by unfold pyLower; rw [hb])]
      rw [hrv, hb, hint]
      decide
  · have hb1 : ¬ pyLower v = "true" := fun h => hb (Or.inl (pyLower_eq_iff.mp h))
    have hb2 : ¬ pyLower v = "false" := fun h => hb (Or.inr (pyLower_eq_iff.mp h))
    have hnt : v.data ≠ "true".data := by
      intro h
      exact hb (Or.inl (by rw [h]; decide))
    have hnf : v.data ≠ "false".data := by
      intro h
      exact hb (Or.inr (by rw [h]; decide))
    by_cases hi : isIntClassL v.data = true
    · have hrv : renderValue v.data = v.data := by
        unfold renderValue
        rw [if_neg hb, if_pos hi]
      have hint : interp v = CValue.int (intValOf v.data) := by
        unfold interp
        rw [if_neg hb1, if_neg hb2, if_pos (show isIntClass v = true from hi)]
      rw [hrv, hint]
      simp only [reparse]
      rw [shellUnescape_id hbs, if_neg hnt, if_neg hnf, cParseInt_intClass hi]
    · by_cases hf : isFloatL v.data = true
      · have hrv : renderValue v.data = v.data := by
          unfold renderValue
          rw [if_neg hb, if_neg hi, if_pos hf]
        have hft : cFloatTok v.data = true := cFloatTok_of_isFloat hstrip hf (hus hf)
        have hpc : cParseInt v.data = none := by
          apply cParseInt_none_of_dotE
          unfold isFloatL at hf
          rw [Bool.and_eq_true] at hf
          exact hf.2
        have hint : interp v = CValue.float v := by
          unfold interp
          rw [if_neg hb1, if_neg hb2, if_neg (show ¬ isIntClass v = true from hi),
            if_pos (show is_float v = true from hf)]
        rw [hrv, hint]
        simp only [reparse]
        rw [shellUnescape_id hbs, if_neg hnt, if_neg hnf, hpc, hft, mk_data]
        rfl
      · have hrv : renderValue v.data =
            '\\' :: '\x22' :: (escapeValue v.data ++ ['\\', '\x22']) := by
          unfold renderValue
          rw [if_neg hb, if_neg hi, if_neg hf]
        have hint : interp v = CValue.str v := by
          unfold interp
          rw [if_neg hb1, if_neg hb2, if_neg (show ¬ isIntClass v = true from hi),
            if_neg (show ¬ is_float v = true from hf)]
        rw [hrv, hint]
        simp only [reparse]
        rw [shellUnescape_cons_bs, shellUnescape_escape hbs]
        have ht1 : ('\x22' :: (qesc v.data ++ ['\x22'])) ≠ "true".data := by
          intro h
          injection h with h1 h2
          exact absurd h1 (by decide)
        have ht2 : ('\x22' :: (qesc v.data ++ ['\x22'])) ≠ "false".data := by
          intro h
          injection h with h1 h2
          exact absurd h1 (by decide)
        rw [if_neg ht1, if_neg ht2]
        have hpc : cParseInt ('\x22' :: (qesc v.data ++ ['\x22'])) = none := by
          simp only [cParseInt]
          rw [if_neg (by decide), if_neg]
          intro hcon
          rw [List.all_cons, Bool.and_eq_true] at hcon
          exact absurd hcon.1 (by decide)
        have hfc : cFloatTok ('\x22' :: (qesc v.data ++ ['\x22'])) = false := by
          unfold cFloatTok
          rw [show stripSign ('\x22' :: (qesc v.data ++ ['\x22'])) =
              '\x22' :: (qesc v.data ++ ['\x22']) from by simp [stripSign]]
          rw [show pyNumber false ('\x22' :: (qesc v.data ++ ['\x22'])) = false from by
            simp only [pyNumber]
            rw [if_neg (by decide), if_neg (by decide)]]
          rfl
        rw [hpc, hfc]
        have hps : cParseString ('\x22' :: (qesc v.data ++ ['\x22'])) = some v.data := by
          show cStrBody (qesc v.data ++ ['\x22']) = some v.data
          exact cStrBody_qesc hbs
        show (cParseString ('\x22' :: (qesc v.data ++ ['\x22']))).map
          (fun s => CValue.str (String.mk s)) = some (CValue.str v)
        rw [hps]
        show some (CValue.str (String.mk v.data)) = some (CValue.str v)
        rw [mk_data]

/-- C9 witness for the amended round-trip, at the accepted entry
`MSG=hello there`. -/
theorem roundtrip_amended_witness :
    ("MSG", "hello there") ∈ (parse_env_file (some ["MSG=hello there"])).1 ∧
    reparse (renderValue "hello there".data) = some (interp "hello there") := by
  refine ⟨by decide, ?_⟩
  exact (roundtrip_amended ["MSG=hello there"] "MSG" "hello there" (by decide) (by decide)
    (by decide)).2

end LoadEnv
